import Mathlib

/-!
Verification of the render-resource binding layer of the `opengl-rust`
renderer: the per-shader uniform value cache (`src/renderer/shader.rs`),
the texture-slot allocator and material activation
(`src/renderer/material.rs`), the light packer (`src/renderer.rs`) and the
uniform-buffer map/write/unmap path (`src/renderer/buffer.rs`).

Shallow embedding conventions:
* `HashMap` / `HashSet` state is embedded as association lists with unique
  keys (`alookup` / `ainsert` mirror `get` / `insert`); `HashSet` views are
  deduplicated lists.
* `Rc<Texture2D>` compares by the wrapped texture (which derives
  `PartialEq` on its single `id: GLuint` field), so a texture identity is
  embedded as its numeric id (`TextureId := Nat`).
* `f32` payloads never influence any control flow beyond the `==`
  comparison in the uniform cache, so they are embedded as opaque tokens
  (`F32 := Nat` stand-ins) whose equality models the source's `==`.
* Device calls (`gl::*`) are recorded as events in an emitted trace;
  a Rust `panic!` / `.unwrap()` failure is an `Option.none` (or an
  `Except.error` carrying the panic message).
-/

/-- Association-list lookup, mirroring `HashMap::get`. -/
def alookup {κ α : Type} [DecidableEq κ] : List (κ × α) → κ → Option α
  | [], _ => none
  | (k, v) :: rest, n => if k = n then some v else alookup rest n

/-- Association-list insert-or-replace, mirroring `HashMap::insert`. -/
def ainsert {κ α : Type} [DecidableEq κ] : List (κ × α) → κ → α → List (κ × α)
  | [], k, v => [(k, v)]
  | (k0, v0) :: rest, k, v =>
      if k0 = k then (k, v) :: rest else (k0, v0) :: ainsert rest k v

/-- Texture identity: `Texture2D` derives `PartialEq` on its `id: GLuint`
field and `Rc<T>` equality delegates to `T`, so a texture is identified by
its numeric GL id. -/
abbrev TextureId := Nat

/-- Opaque stand-in for an `f32` payload; only its decidable equality is
observed (the uniform cache compares with `==`). -/
abbrev F32 := Nat

/-- `MaterialProperty` from `src/renderer/material.rs`. -/
inductive MaterialProperty : Type
  | Boolean : Bool → MaterialProperty
  | Integer : Int → MaterialProperty
  | UInteger : Nat → MaterialProperty
  | Float : F32 → MaterialProperty
  | Vec3 : F32 × F32 × F32 → MaterialProperty
  | Color : F32 → F32 → F32 → MaterialProperty
  | Texture : TextureId → MaterialProperty
deriving DecidableEq, Repr

/-- `UniformValue` from `src/renderer/shader.rs` (the cached shape of a
uniform write); `Mat3` / `Mat4` payloads are opaque tokens since no claim
inspects them. -/
inductive UniformValue : Type
  | Int : Int → UniformValue
  | UInt : Nat → UniformValue
  | Float : F32 → UniformValue
  | VecF3 : F32 × F32 × F32 → UniformValue
  | VecF4 : F32 × F32 × F32 × F32 → UniformValue
  | Mat3 : Nat → UniformValue
  | Mat4 : Nat → UniformValue
deriving DecidableEq, Repr

/-- The per-program uniform value cache
(`ShaderProgram.uniform_cache: RefCell<HashMap<Box<str>, UniformValue>>`). -/
abbrev UniformCache := List (String × UniformValue)

/-- `ShaderProgram::set_uniform` from `src/renderer/shader.rs` lines
147-162: if a cached value for `name` equals the new value, return without
invoking the setter; otherwise insert the new value into the cache and
invoke the setter.  Returns the updated cache and whether the setter
(`apply_fn`, the device write) ran. -/
def setUniform (cache : UniformCache) (name : String) (v : UniformValue) :
    UniformCache × Bool :=
  match alookup cache name with
  | some cached => if cached = v then (cache, false) else (ainsert cache name v, true)
  | none => (ainsert cache name v, true)

/-- `ShaderProgram::get_uniform_location` from `src/renderer/shader.rs`
lines 222-228: look the name up in the link-time uniform table; panic with
a message naming the uniform when absent. -/
def getUniformLocation (uniforms : List (String × Int)) (name : String) :
    Except String Int :=
  match alookup uniforms name with
  | some location => Except.ok location
  | none => Except.error ("Uniform not found: " ++ name)

/-! ## Light packing (`Renderer::update_light_parameters`, `src/renderer.rs`) -/

/-- The closed set of light kinds dispatched on in
`update_light_parameters` (`is_spot_light` / `is_point_light` /
`is_directional_light`; each `Light` holds exactly one of the three inner
types). -/
inductive LightKind : Type
  | point
  | spot
  | directional
deriving DecidableEq, Repr

/-- `MAX_POINT_LIGHTS` (`src/renderer.rs` line 439). -/
def MAX_POINT_LIGHTS : Nat := 10

/-- `MAX_SPOT_LIGHTS` (`src/renderer.rs` line 440). -/
def MAX_SPOT_LIGHTS : Nat := 5

/-- `MAX_DIRECTIONAL_LIGHTS` (`src/renderer.rs` line 441). -/
def MAX_DIRECTIONAL_LIGHTS : Nat := 5

/-- The three per-kind counters of `LightUniforms`
(`nr_point_lights` / `nr_spot_lights` / `nr_directional_lights`), starting
from the zeroed struct. -/
structure LightCounts : Type where
  nrPoint : Nat
  nrSpot : Nat
  nrDirectional : Nat
deriving DecidableEq, Repr

/-- All-zero counters (`MaybeUninit::<LightUniforms>::zeroed()`). -/
def LightCounts.zero : LightCounts := ⟨0, 0, 0⟩

/-- The packing loop of `Renderer::update_light_parameters`
(`src/renderer.rs` lines 310-362): for each light, dispatch on its kind;
if that kind's counter has already reached its maximum, panic with a
message naming the kind, else write the record at the counter index and
increment the counter.  Record payload writes carry no control flow and
are elided; the counter/capacity structure is kept exactly. -/
def updateLightParameters : List LightKind → LightCounts → Except String LightCounts
  | [], c => Except.ok c
  | LightKind.spot :: rest, c =>
      if c.nrSpot ≥ MAX_SPOT_LIGHTS then
        Except.error "Exceeded maximum number of spot lights"
      else
        updateLightParameters rest ⟨c.nrPoint, c.nrSpot + 1, c.nrDirectional⟩
  | LightKind.point :: rest, c =>
      if c.nrPoint ≥ MAX_POINT_LIGHTS then
        Except.error "Exceeded maximum number of point lights"
      else
        updateLightParameters rest ⟨c.nrPoint + 1, c.nrSpot, c.nrDirectional⟩
  | LightKind.directional :: rest, c =>
      if c.nrDirectional ≥ MAX_DIRECTIONAL_LIGHTS then
        Except.error "Exceeded maximum number of directional lights"
      else
        updateLightParameters rest ⟨c.nrPoint, c.nrSpot, c.nrDirectional + 1⟩

/-- Number of lights of one kind in a scene list. -/
def countKind (k : LightKind) (lights : List LightKind) : Nat :=
  (lights.filter (fun l => l = k)).length

/-! ## Uniform-buffer mapping (`UniformBuffer::map_data`, `src/renderer/buffer.rs`) -/

/-- Device-level steps taken by `UniformBuffer::map_data`. -/
inductive BufEvent : Type
  | bind
  | mapRange
  | writerRun
  | unmap
  | unbind
deriving DecidableEq, Repr

/-- `UniformBuffer::map_data` from `src/renderer/buffer.rs` lines 110-138.
`mapOk` models whether `gl::MapBufferRange` returned a non-null pointer,
`unmapOk` whether `gl::UnmapBuffer` returned `gl::TRUE`; `setter` is the
caller's writer closure acting on the mapped contents `buf`.  Returns the
device-event trace, the final buffer contents, and the `Result`. -/
def mapData {α : Type} (mapOk unmapOk : Bool) (setter : α → α) (buf : α) :
    List BufEvent × α × Except String Unit :=
  if mapOk = false then
    ([BufEvent.bind, BufEvent.mapRange], buf, Except.error "Failed to map buffer")
  else
    ([BufEvent.bind, BufEvent.mapRange, BufEvent.writerRun, BufEvent.unmap,
      BufEvent.unbind],
     setter buf,
     if unmapOk then Except.ok () else Except.error "Failed to unmap buffer")

/-! ## Texture-slot allocator and material activation (`src/renderer/material.rs`) -/

/-- The `texture_slots: [bool; 16]` in-use flags, embedded as a function
from slot index to flag (meaningful on indices below `NUM_TEXTURE_SLOTS`). -/
abbrev SlotFlags := Nat → Bool

/-- Size of the `texture_slots` array (`[bool; 16]`,
`src/renderer/material.rs` line 13). -/
def NUM_TEXTURE_SLOTS : Nat := 16

/-- Write `false` at one slot index (`texture_slots[slot] = false`). -/
def clearSlot (slots : SlotFlags) (i : Nat) : SlotFlags :=
  fun j => if j = i then false else slots j

/-- Write `true` at one slot index (`texture_slots[slot] = true`). -/
def setSlot (slots : SlotFlags) (i : Nat) : SlotFlags :=
  fun j => if j = i then true else slots j

/-- The mutable allocator state of a `Material`:
`texture_to_slot: RefCell<HashMap<Rc<Texture2D>, u32>>` and
`texture_slots: RefCell<[bool; 16]>`. -/
structure AllocState : Type where
  textureToSlot : List (TextureId × Nat)
  textureSlots : SlotFlags

/-- Fresh allocator state (`Material::new`: empty map, all-false flags). -/
def AllocState.init : AllocState := ⟨[], fun _ => false⟩

/-- A `PropertiesMap` (`map: HashMap<String, MaterialProperty>`). -/
abbrev PropList := List (String × MaterialProperty)

/-- The `HashSet` of textures referenced by a property map
(`used_textures` in `Material::update_texture_slots`, lines 138-149:
`filter_map` keeping `Texture` values, collected into a set). -/
def texturesOf (props : PropList) : List TextureId :=
  (props.filterMap (fun p =>
    match p.2 with
    | MaterialProperty.Texture t => some t
    | _ => none)).dedup

/-- First removal loop of `Material::update_texture_slots` (lines 157-163):
for every mapped texture not in `used`, clear its slot flag and drop the
mapping; other entries and flags are untouched. -/
def freeUnused (used : List TextureId) :
    List (TextureId × Nat) → SlotFlags → List (TextureId × Nat) × SlotFlags
  | [], slots => ([], slots)
  | (t, s) :: rest, slots =>
      let r := freeUnused used rest slots
      if t ∈ used then ((t, s) :: r.1, r.2) else (r.1, clearSlot r.2 s)

/-- `self.texture_slots.borrow().iter().position(|&x| !x)` — index of the
lowest-index free slot, if any. -/
def lowestFreeSlot (slots : SlotFlags) : Option Nat :=
  (List.range NUM_TEXTURE_SLOTS).find? (fun i => !(slots i))

/-- Second loop of `Material::update_texture_slots` (lines 165-178): for
every newly used texture, take the lowest-index free slot (`.unwrap()`
panics — `none` — when there is none), mark it used and add the mapping. -/
def assignSlots :
    List TextureId → List (TextureId × Nat) → SlotFlags →
      Option (List (TextureId × Nat) × SlotFlags)
  | [], m, slots => some (m, slots)
  | t :: rest, m, slots =>
      match lowestFreeSlot slots with
      | none => none
      | some i => assignSlots rest ((t, i) :: m) (setSlot slots i)

/-- `Material::update_texture_slots` (lines 137-179): recompute the
used-texture set from the material's own (base) properties, free the slots
of no-longer-used textures, then assign the lowest free slot to each used
but unbound texture. -/
def updateTextureSlots (props : PropList) (a : AllocState) : Option AllocState :=
  let used := texturesOf props
  let fr := freeUnused used a.textureToSlot a.textureSlots
  let unbound := used.filter (fun t => alookup fr.1 t = none)
  (assignSlots unbound fr.1 fr.2).map (fun r => ⟨r.1, r.2⟩)

/-- Observable steps of a material activation: `commit` is a call into
`ShaderProgram::set_uniform` (always made, cache-gated internally),
`apply` is the setter actually running (a device uniform write),
`useProgram` is `gl::UseProgram`, `bindTexture t s` is
`texture.bind_slot(slot)`. -/
inductive Event : Type
  | useProgram
  | commit : String → UniformValue → Event
  | apply : String → UniformValue → Event
  | bindTexture : TextureId → Nat → Event
deriving DecidableEq, Repr

/-- The `UniformValue` a scalar/vector property dispatches to in
`Material::use_material` lines 97-115 (`Boolean` goes through
`set_uniform_1i(name, *value as i32)`; `Color` through
`set_uniform_3f`, which packs `[x, y, z]`); `none` for textures, which
take the slot-resolution path. -/
def uniformOfScalar : MaterialProperty → Option UniformValue
  | MaterialProperty.Boolean b => some (UniformValue.Int (if b then 1 else 0))
  | MaterialProperty.Integer i => some (UniformValue.Int i)
  | MaterialProperty.UInteger u => some (UniformValue.UInt u)
  | MaterialProperty.Float f => some (UniformValue.Float f)
  | MaterialProperty.Vec3 v => some (UniformValue.VecF3 v)
  | MaterialProperty.Color r g b => some (UniformValue.VecF3 (r, g, b))
  | MaterialProperty.Texture _ => none

/-- The slot lookup of the `Texture` arm of `Material::use_material`
(lines 116-125): hit the map, or rebuild via `update_texture_slots` and
index into the map (`panic` — `none` — if still absent). -/
def resolveSlot (props : PropList) (a : AllocState) (t : TextureId) :
    Option (Nat × AllocState) :=
  match alookup a.textureToSlot t with
  | some s => some (s, a)
  | none =>
      match updateTextureSlots props a with
      | none => none
      | some a2 =>
          match alookup a2.textureToSlot t with
          | some s => some (s, a2)
          | none => none

/-- One iteration of the property loop of `Material::use_material`
(lines 97-128) for the effective value `v` of property `n`: dispatch by
tag into `set_uniform_*` (scalars) or slot resolution followed by
`set_uniform_1i` (textures). -/
def commitProp (props : PropList) (n : String) (v : MaterialProperty)
    (a : AllocState) (cache : UniformCache) :
    Option (AllocState × UniformCache × List Event) :=
  match uniformOfScalar v with
  | some u =>
      let r := setUniform cache n u
      some (a, r.1,
        Event.commit n u :: (if r.2 then [Event.apply n u] else []))
  | none =>
      match v with
      | MaterialProperty.Texture t =>
          match resolveSlot props a t with
          | none => none
          | some (s, a2) =>
              let u := UniformValue.Int (Int.ofNat s)
              let r := setUniform cache n u
              some (a2, r.1,
                Event.commit n u :: (if r.2 then [Event.apply n u] else []))
      | _ => none

/-- The property loop of `Material::use_material` (lines 91-129): iterate
the base map; for each entry take the override value when the override map
has one for the same name, else the base value, and commit it.  `props`
is the full base map (read again by `update_texture_slots`), `todo` the
remaining entries. -/
def processProps (props overrides : PropList) :
    PropList → AllocState → UniformCache →
      Option (AllocState × UniformCache × List Event)
  | [], a, cache => some (a, cache, [])
  | (n, v) :: todo, a, cache =>
      let eff :=
        match alookup overrides n with
        | some w => w
        | none => v
      (commitProp props n eff a cache).bind (fun q =>
        (processProps props overrides todo q.1 q.2.1).map
          (fun r => (r.1, r.2.1, q.2.2 ++ r.2.2)))

/-- A `Material` together with the cache of its shader program: the base
`PropertiesMap`, the allocator state, and the shader's uniform cache. -/
structure MaterialState : Type where
  properties : PropList
  alloc : AllocState
  cache : UniformCache

/-- `Material::use_material` (lines 88-135): activate the program, walk
the base properties with overrides applied, then bind every texture in the
current slot map to its slot.  `none` models a panic (missing slot after
rebuild, or slot capacity exhausted). -/
def useMaterial (m : MaterialState) (overrides : PropList) :
    Option (MaterialState × List Event) :=
  (processProps m.properties overrides m.properties m.alloc m.cache).map
    (fun q =>
      let binds := q.1.textureToSlot.map (fun p => Event.bindTexture p.1 p.2)
      (⟨m.properties, q.1, q.2.1⟩, Event.useProgram :: q.2.2 ++ binds))

/-- The `commit` entries of a trace, in order. -/
def commitsOf : List Event → List (String × UniformValue)
  | [] => []
  | Event.commit n u :: rest => (n, u) :: commitsOf rest
  | _ :: rest => commitsOf rest

/-- The `apply` entries (actual device uniform writes) of a trace. -/
def appliesOf : List Event → List (String × UniformValue)
  | [] => []
  | Event.apply n u :: rest => (n, u) :: appliesOf rest
  | _ :: rest => appliesOf rest

/-- The texture binds of a trace. -/
def bindsOf : List Event → List (TextureId × Nat)
  | [] => []
  | Event.bindTexture t s :: rest => (t, s) :: bindsOf rest
  | _ :: rest => bindsOf rest

/-- The effective value of a base entry under an override map (override
wins when it defines the same name). -/
def effectiveValue (overrides : PropList) (p : String × MaterialProperty) :
    MaterialProperty :=
  match alookup overrides p.1 with
  | some w => w
  | none => p.2

/-! ## Basic cache lemmas -/

theorem alookup_ainsert_self {κ α : Type} [DecidableEq κ]
    (l : List (κ × α)) (k : κ) (v : α) : alookup (ainsert l k v) k = some v := by
  induction l with
  | nil => simp [ainsert, alookup]
  | cons p rest ih =>
      obtain ⟨k0, v0⟩ := p
      by_cases h : k0 = k
      · simp [ainsert, h, alookup]
      · simp [ainsert, h, alookup, ih]

theorem alookup_setUniform_fst (cache : UniformCache) (n : String)
    (v : UniformValue) : alookup (setUniform cache n v).1 n = some v := by
  unfold setUniform
  cases h : alookup cache n with
  | none => simpa using alookup_ainsert_self cache n v
  | some cached =>
      by_cases he : cached = v
      · simpa [he] using h
      · simpa [he] using alookup_ainsert_self cache n v

theorem alookup_eq_none_iff {κ α : Type} [DecidableEq κ]
    (l : List (κ × α)) (k : κ) :
    alookup l k = none ↔ k ∉ l.map Prod.fst := by
  induction l with
  | nil => simp [alookup]
  | cons p rest ih =>
      obtain ⟨k0, v0⟩ := p
      by_cases h : k0 = k
      · simp [alookup, h]
      · simp [alookup, h, ih, Ne.symm h]

theorem alookup_isSome_mem {κ α : Type} [DecidableEq κ]
    {l : List (κ × α)} {k : κ} {v : α} (h : alookup l k = some v) :
    k ∈ l.map Prod.fst := by
  by_contra hmem
  rw [← alookup_eq_none_iff] at hmem
  rw [h] at hmem
  cases hmem

/-! ## Claim theorems: uniform value cache, location table, buffer mapping -/

/-- C2: `set_uniform` is cache-gated: when a structurally equal value is
cached for the name, the call is a no-op and the setter never runs;
otherwise the cache entry is updated to the new value (it is in the cache
that the setter closure observes) and the setter runs.  Consequently a
second call in a row with the same name and value never runs the setter. -/
theorem setUniform_cache_gates_apply (cache : UniformCache) (n : String)
    (v : UniformValue) :
    (alookup cache n = some v → setUniform cache n v = (cache, false)) ∧
    (alookup cache n ≠ some v →
      setUniform cache n v = (ainsert cache n v, true) ∧
      alookup (ainsert cache n v) n = some v) ∧
    (setUniform (setUniform cache n v).1 n v).2 = false := by
  refine ⟨?_, ?_, ?_⟩
  · intro h
    simp [setUniform, h]
  · intro h
    refine ⟨?_, alookup_ainsert_self cache n v⟩
    unfold setUniform
    cases hc : alookup cache n with
    | none => rfl
    | some cached =>
        have : cached ≠ v := by
          intro he
          exact h (by simpa [he] using hc)
        simp [this]
  · have h1 := alookup_setUniform_fst cache n v
    set c1 := (setUniform cache n v).1 with hc1
    show (setUniform c1 n v).2 = false
    simp [setUniform, h1]

/-- C2 witness: with `Int 0` cached for `"u"`, setting `Int 0` again is a
no-op; from an empty cache, setting `Int 0` updates the cache and runs the
setter. -/
theorem setUniform_cache_gates_apply_witness :
    setUniform [("u", UniformValue.Int 0)] "u" (UniformValue.Int 0)
        = ([("u", UniformValue.Int 0)], false) ∧
    setUniform [] "u" (UniformValue.Int 0)
        = ([("u", UniformValue.Int 0)], true) :=
  ⟨(setUniform_cache_gates_apply [("u", UniformValue.Int 0)] "u"
      (UniformValue.Int 0)).1 (by decide),
   ((setUniform_cache_gates_apply [] "u" (UniformValue.Int 0)).2.1
      (by decide)).1⟩

/-- C6: resolving a uniform name absent from the link-time uniform table
fails fatally with an error naming the uniform, for every such name; it
never returns a handle. -/
theorem getUniformLocation_missing_fatal (uniforms : List (String × Int))
    (name : String) (h : alookup uniforms name = none) :
    getUniformLocation uniforms name
      = Except.error ("Uniform not found: " ++ name) := by
  simp [getUniformLocation, h]

/-- C6 witness: an empty uniform table rejects the name `"model"`. -/
theorem getUniformLocation_missing_fatal_witness :
    getUniformLocation [] "model" = Except.error ("Uniform not found: " ++ "model") :=
  getUniformLocation_missing_fatal [] "model" rfl

/-- C8: in `map_data`, a failed map acquisition returns a recoverable
error with the writer never invoked (contents unchanged, no writer step in
the trace); on every path where the writer has run, the unmap and the
unbind steps are in the trace before the call returns; and a failed unmap
is returned as a recoverable error rather than swallowed. -/
theorem mapData_scoped_release {α : Type} (mapOk unmapOk : Bool)
    (setter : α → α) (buf : α) :
    (mapOk = false →
      (mapData mapOk unmapOk setter buf).2.2 = Except.error "Failed to map buffer" ∧
      (mapData mapOk unmapOk setter buf).2.1 = buf ∧
      BufEvent.writerRun ∉ (mapData mapOk unmapOk setter buf).1) ∧
    (BufEvent.writerRun ∈ (mapData mapOk unmapOk setter buf).1 →
      BufEvent.unmap ∈ (mapData mapOk unmapOk setter buf).1 ∧
      BufEvent.unbind ∈ (mapData mapOk unmapOk setter buf).1) ∧
    (mapOk = true → unmapOk = false →
      (mapData mapOk unmapOk setter buf).2.2 = Except.error "Failed to unmap buffer") := by
  cases mapOk <;> cases unmapOk <;> simp [mapData]

/-- C8 witness: both error paths at a concrete buffer. -/
theorem mapData_scoped_release_witness :
    ((mapData false true (fun x => x + 1) (0 : Nat)).2.2
        = Except.error "Failed to map buffer" ∧
      (mapData false true (fun x => x + 1) (0 : Nat)).2.1 = 0 ∧
      BufEvent.writerRun ∉ (mapData false true (fun x => x + 1) (0 : Nat)).1) ∧
    (mapData true false (fun x => x + 1) (0 : Nat)).2.2
        = Except.error "Failed to unmap buffer" :=
  ⟨(mapData_scoped_release false true (fun x => x + 1) 0).1 rfl,
   (mapData_scoped_release true false (fun x => x + 1) 0).2.2 rfl rfl⟩

/-- C10: a `Boolean(b)` property is dispatched through
`set_uniform_1i(name, b as i32)` and hence commits exactly the integer
`1`/`0` under the same cache key as an `Integer` property: the commit
behaviour of `Boolean b` is literally that of `Integer (if b then 1 else
0)`, and committing `Boolean(true)` right after `Integer(1)` under the
same name is suppressed by the value cache (no apply event, cache and
allocator unchanged). -/
theorem boolean_shares_integer_channel (props : PropList) (n : String)
    (b : Bool) (a : AllocState) (cache : UniformCache) :
    commitProp props n (MaterialProperty.Boolean b) a cache
      = commitProp props n (MaterialProperty.Integer (if b then 1 else 0)) a cache ∧
    commitProp props n (MaterialProperty.Boolean true) a
        (setUniform cache n (UniformValue.Int 1)).1
      = some (a, (setUniform cache n (UniformValue.Int 1)).1,
          [Event.commit n (UniformValue.Int 1)]) := by
  constructor
  · cases b <;> rfl
  · have h1 := alookup_setUniform_fst cache n (UniformValue.Int 1)
    set c1 := (setUniform cache n (UniformValue.Int 1)).1 with hc1
    show commitProp props n (MaterialProperty.Boolean true) a c1 = _
    simp [commitProp, uniformOfScalar, setUniform, h1]

/-! ## Light packer lemmas and claim theorem -/

theorem updateLightParameters_ok (lights : List LightKind) :
    ∀ c : LightCounts,
      c.nrPoint + countKind LightKind.point lights ≤ MAX_POINT_LIGHTS →
      c.nrSpot + countKind LightKind.spot lights ≤ MAX_SPOT_LIGHTS →
      c.nrDirectional + countKind LightKind.directional lights ≤ MAX_DIRECTIONAL_LIGHTS →
      updateLightParameters lights c
        = Except.ok ⟨c.nrPoint + countKind LightKind.point lights,
            c.nrSpot + countKind LightKind.spot lights,
            c.nrDirectional + countKind LightKind.directional lights⟩ := by
  induction lights with
  | nil => intro c hp hs hd; simp [updateLightParameters, countKind]
  | cons l rest ih =>
      intro c hp hs hd
      cases l with
      | point =>
          have hcnt : countKind LightKind.point (LightKind.point :: rest)
              = countKind LightKind.point rest + 1 := by
            simp [countKind, List.filter]
          have hcs : countKind LightKind.spot (LightKind.point :: rest)
              = countKind LightKind.spot rest := by
            simp [countKind, List.filter]
          have hcd : countKind LightKind.directional (LightKind.point :: rest)
              = countKind LightKind.directional rest := by
            simp [countKind, List.filter]
          rw [hcnt] at hp
          have hlt : ¬ c.nrPoint ≥ MAX_POINT_LIGHTS := by omega
          rw [updateLightParameters, if_neg hlt,
            ih ⟨c.nrPoint + 1, c.nrSpot, c.nrDirectional⟩ (by simpa using by omega)
              (by simpa using by omega) (by simpa using by omega)]
          rw [hcnt, hcs, hcd]
          simp [LightCounts.mk.injEq]
          omega
      | spot =>
          have hcnt : countKind LightKind.spot (LightKind.spot :: rest)
              = countKind LightKind.spot rest + 1 := by
            simp [countKind, List.filter]
          have hcs : countKind LightKind.point (LightKind.spot :: rest)
              = countKind LightKind.point rest := by
            simp [countKind, List.filter]
          have hcd : countKind LightKind.directional (LightKind.spot :: rest)
              = countKind LightKind.directional rest := by
            simp [countKind, List.filter]
          rw [hcnt] at hs
          have hlt : ¬ c.nrSpot ≥ MAX_SPOT_LIGHTS := by omega
          rw [updateLightParameters, if_neg hlt,
            ih ⟨c.nrPoint, c.nrSpot + 1, c.nrDirectional⟩ (by simpa using by omega)
              (by simpa using by omega) (by simpa using by omega)]
          rw [hcnt, hcs, hcd]
          simp [LightCounts.mk.injEq]
          omega
      | directional =>
          have hcnt : countKind LightKind.directional (LightKind.directional :: rest)
              = countKind LightKind.directional rest + 1 := by
            simp [countKind, List.filter]
          have hcs : countKind LightKind.point (LightKind.directional :: rest)
              = countKind LightKind.point rest := by
            simp [countKind, List.filter]
          have hcd : countKind LightKind.spot (LightKind.directional :: rest)
              = countKind LightKind.spot rest := by
            simp [countKind, List.filter]
          rw [hcnt] at hd
          have hlt : ¬ c.nrDirectional ≥ MAX_DIRECTIONAL_LIGHTS := by omega
          rw [updateLightParameters, if_neg hlt,
            ih ⟨c.nrPoint, c.nrSpot, c.nrDirectional + 1⟩ (by simpa using by omega)
              (by simpa using by omega) (by simpa using by omega)]
          rw [hcnt, hcs, hcd]
          simp [LightCounts.mk.injEq]
          omega

theorem updateLightParameters_point_overflow (lights : List LightKind) :
    ∀ c : LightCounts,
      c.nrPoint ≤ MAX_POINT_LIGHTS →
      MAX_POINT_LIGHTS < c.nrPoint + countKind LightKind.point lights →
      c.nrSpot + countKind LightKind.spot lights ≤ MAX_SPOT_LIGHTS →
      c.nrDirectional + countKind LightKind.directional lights ≤ MAX_DIRECTIONAL_LIGHTS →
      updateLightParameters lights c
        = Except.error "Exceeded maximum number of point lights" := by
  induction lights with
  | nil =>
      intro c hb hp hs hd
      simp [countKind] at hp
      omega
  | cons l rest ih =>
      intro c hb hp hs hd
      cases l with
      | point =>
          by_cases hge : c.nrPoint ≥ MAX_POINT_LIGHTS
          · rw [updateLightParameters, if_pos hge]
          · have hcnt : countKind LightKind.point (LightKind.point :: rest)
                = countKind LightKind.point rest + 1 := by
              simp [countKind, List.filter]
            have hcs : countKind LightKind.spot (LightKind.point :: rest)
                = countKind LightKind.spot rest := by
              simp [countKind, List.filter]
            have hcd : countKind LightKind.directional (LightKind.point :: rest)
                = countKind LightKind.directional rest := by
              simp [countKind, List.filter]
            rw [updateLightParameters, if_neg hge]
            refine ih ⟨c.nrPoint + 1, c.nrSpot, c.nrDirectional⟩ ?_ ?_ ?_ ?_
            · simp; omega
            · rw [hcnt] at hp; simp; omega
            · rw [hcs] at hs; simpa using hs
            · rw [hcd] at hd; simpa using hd
      | spot =>
          have hcnt : countKind LightKind.spot (LightKind.spot :: rest)
              = countKind LightKind.spot rest + 1 := by
            simp [countKind, List.filter]
          have hcp : countKind LightKind.point (LightKind.spot :: rest)
              = countKind LightKind.point rest := by
            simp [countKind, List.filter]
          have hcd : countKind LightKind.directional (LightKind.spot :: rest)
              = countKind LightKind.directional rest := by
            simp [countKind, List.filter]
          rw [hcnt] at hs
          have hlt : ¬ c.nrSpot ≥ MAX_SPOT_LIGHTS := by omega
          rw [updateLightParameters, if_neg hlt]
          refine ih ⟨c.nrPoint, c.nrSpot + 1, c.nrDirectional⟩ ?_ ?_ ?_ ?_
          · simpa using hb
          · rw [hcp] at hp; simpa using hp
          · simp; omega
          · rw [hcd] at hd; simpa using hd
      | directional =>
          have hcnt : countKind LightKind.directional (LightKind.directional :: rest)
              = countKind LightKind.directional rest + 1 := by
            simp [countKind, List.filter]
          have hcp : countKind LightKind.point (LightKind.directional :: rest)
              = countKind LightKind.point rest := by
            simp [countKind, List.filter]
          have hcs : countKind LightKind.spot (LightKind.directional :: rest)
              = countKind LightKind.spot rest := by
            simp [countKind, List.filter]
          rw [hcnt] at hd
          have hlt : ¬ c.nrDirectional ≥ MAX_DIRECTIONAL_LIGHTS := by omega
          rw [updateLightParameters, if_neg hlt]
          refine ih ⟨c.nrPoint, c.nrSpot, c.nrDirectional + 1⟩ ?_ ?_ ?_ ?_
          · simpa using hb
          · rw [hcp] at hp; simpa using hp
          · rw [hcs] at hs; simpa using hs
          · simp; omega

theorem updateLightParameters_spot_overflow (lights : List LightKind) :
    ∀ c : LightCounts,
      c.nrSpot ≤ MAX_SPOT_LIGHTS →
      MAX_SPOT_LIGHTS < c.nrSpot + countKind LightKind.spot lights →
      c.nrPoint + countKind LightKind.point lights ≤ MAX_POINT_LIGHTS →
      c.nrDirectional + countKind LightKind.directional lights ≤ MAX_DIRECTIONAL_LIGHTS →
      updateLightParameters lights c
        = Except.error "Exceeded maximum number of spot lights" := by
  induction lights with
  | nil =>
      intro c hb hsp hp hd
      simp [countKind] at hsp
      omega
  | cons l rest ih =>
      intro c hb hsp hp hd
      cases l with
      | spot =>
          by_cases hge : c.nrSpot ≥ MAX_SPOT_LIGHTS
          · rw [updateLightParameters, if_pos hge]
          · have hcnt : countKind LightKind.spot (LightKind.spot :: rest)
                = countKind LightKind.spot rest + 1 := by
              simp [countKind, List.filter]
            have hcp : countKind LightKind.point (LightKind.spot :: rest)
                = countKind LightKind.point rest := by
              simp [countKind, List.filter]
            have hcd : countKind LightKind.directional (LightKind.spot :: rest)
                = countKind LightKind.directional rest := by
              simp [countKind, List.filter]
            rw [updateLightParameters, if_neg hge]
            refine ih ⟨c.nrPoint, c.nrSpot + 1, c.nrDirectional⟩ ?_ ?_ ?_ ?_
            · simp; omega
            · rw [hcnt] at hsp; simp; omega
            · rw [hcp] at hp; simpa using hp
            · rw [hcd] at hd; simpa using hd
      | point =>
          have hcnt : countKind LightKind.point (LightKind.point :: rest)
              = countKind LightKind.point rest + 1 := by
            simp [countKind, List.filter]
          have hcs : countKind LightKind.spot (LightKind.point :: rest)
              = countKind LightKind.spot rest := by
            simp [countKind, List.filter]
          have hcd : countKind LightKind.directional (LightKind.point :: rest)
              = countKind LightKind.directional rest := by
            simp [countKind, List.filter]
          rw [hcnt] at hp
          have hlt : ¬ c.nrPoint ≥ MAX_POINT_LIGHTS := by omega
          rw [updateLightParameters, if_neg hlt]
          refine ih ⟨c.nrPoint + 1, c.nrSpot, c.nrDirectional⟩ ?_ ?_ ?_ ?_
          · simpa using hb
          · rw [hcs] at hsp; simpa using hsp
          · simp; omega
          · rw [hcd] at hd; simpa using hd
      | directional =>
          have hcnt : countKind LightKind.directional (LightKind.directional :: rest)
              = countKind LightKind.directional rest + 1 := by
            simp [countKind, List.filter]
          have hcp : countKind LightKind.point (LightKind.directional :: rest)
              = countKind LightKind.point rest := by
            simp [countKind, List.filter]
          have hcs : countKind LightKind.spot (LightKind.directional :: rest)
              = countKind LightKind.spot rest := by
            simp [countKind, List.filter]
          rw [hcnt] at hd
          have hlt : ¬ c.nrDirectional ≥ MAX_DIRECTIONAL_LIGHTS := by omega
          rw [updateLightParameters, if_neg hlt]
          refine ih ⟨c.nrPoint, c.nrSpot, c.nrDirectional + 1⟩ ?_ ?_ ?_ ?_
          · simpa using hb
          · rw [hcs] at hsp; simpa using hsp
          · rw [hcp] at hp; simpa using hp
          · simp; omega

theorem updateLightParameters_directional_overflow (lights : List LightKind) :
    ∀ c : LightCounts,
      c.nrDirectional ≤ MAX_DIRECTIONAL_LIGHTS →
      MAX_DIRECTIONAL_LIGHTS < c.nrDirectional + countKind LightKind.directional lights →
      c.nrPoint + countKind LightKind.point lights ≤ MAX_POINT_LIGHTS →
      c.nrSpot + countKind LightKind.spot lights ≤ MAX_SPOT_LIGHTS →
      updateLightParameters lights c
        = Except.error "Exceeded maximum number of directional lights" := by
  induction lights with
  | nil =>
      intro c hb hdo hp hs
      simp [countKind] at hdo
      omega
  | cons l rest ih =>
      intro c hb hdo hp hs
      cases l with
      | directional =>
          by_cases hge : c.nrDirectional ≥ MAX_DIRECTIONAL_LIGHTS
          · rw [updateLightParameters, if_pos hge]
          · have hcnt : countKind LightKind.directional (LightKind.directional :: rest)
                = countKind LightKind.directional rest + 1 := by
              simp [countKind, List.filter]
            have hcp : countKind LightKind.point (LightKind.directional :: rest)
                = countKind LightKind.point rest := by
              simp [countKind, List.filter]
            have hcs : countKind LightKind.spot (LightKind.directional :: rest)
                = countKind LightKind.spot rest := by
              simp [countKind, List.filter]
            rw [updateLightParameters, if_neg hge]
            refine ih ⟨c.nrPoint, c.nrSpot, c.nrDirectional + 1⟩ ?_ ?_ ?_ ?_
            · simp; omega
            · rw [hcnt] at hdo; simp; omega
            · rw [hcp] at hp; simpa using hp
            · rw [hcs] at hs; simpa using hs
      | point =>
          have hcnt : countKind LightKind.point (LightKind.point :: rest)
              = countKind LightKind.point rest + 1 := by
            simp [countKind, List.filter]
          have hcs : countKind LightKind.spot (LightKind.point :: rest)
              = countKind LightKind.spot rest := by
            simp [countKind, List.filter]
          have hcd : countKind LightKind.directional (LightKind.point :: rest)
              = countKind LightKind.directional rest := by
            simp [countKind, List.filter]
          rw [hcnt] at hp
          have hlt : ¬ c.nrPoint ≥ MAX_POINT_LIGHTS := by omega
          rw [updateLightParameters, if_neg hlt]
          refine ih ⟨c.nrPoint + 1, c.nrSpot, c.nrDirectional⟩ ?_ ?_ ?_ ?_
          · simpa using hb
          · rw [hcd] at hdo; simpa using hdo
          · simp; omega
          · rw [hcs] at hs; simpa using hs
      | spot =>
          have hcnt : countKind LightKind.spot (LightKind.spot :: rest)
              = countKind LightKind.spot rest + 1 := by
            simp [countKind, List.filter]
          have hcp : countKind LightKind.point (LightKind.spot :: rest)
              = countKind LightKind.point rest := by
            simp [countKind, List.filter]
          have hcd : countKind LightKind.directional (LightKind.spot :: rest)
              = countKind LightKind.directional rest := by
            simp [countKind, List.filter]
          rw [hcnt] at hs
          have hlt : ¬ c.nrSpot ≥ MAX_SPOT_LIGHTS := by omega
          rw [updateLightParameters, if_neg hlt]
          refine ih ⟨c.nrPoint, c.nrSpot + 1, c.nrDirectional⟩ ?_ ?_ ?_ ?_
          · simpa using hb
          · rw [hcd] at hdo; simpa using hdo
          · rw [hcp] at hp; simpa using hp
          · simp; omega

/-- C4: packing a scene whose per-kind light counts all fit the declared
maxima (10 point, 5 spot, 5 directional) succeeds with each count field
equal to the number of lights of that kind; and whenever one kind's count
exceeds its maximum (the other kinds fitting theirs), packing fails with
the capacity error naming that kind. -/
theorem light_packing_capacity (lights : List LightKind) :
    (countKind LightKind.point lights ≤ MAX_POINT_LIGHTS →
     countKind LightKind.spot lights ≤ MAX_SPOT_LIGHTS →
     countKind LightKind.directional lights ≤ MAX_DIRECTIONAL_LIGHTS →
     updateLightParameters lights LightCounts.zero
       = Except.ok ⟨countKind LightKind.point lights,
           countKind LightKind.spot lights,
           countKind LightKind.directional lights⟩) ∧
    (MAX_POINT_LIGHTS < countKind LightKind.point lights →
     countKind LightKind.spot lights ≤ MAX_SPOT_LIGHTS →
     countKind LightKind.directional lights ≤ MAX_DIRECTIONAL_LIGHTS →
     updateLightParameters lights LightCounts.zero
       = Except.error "Exceeded maximum number of point lights") ∧
    (MAX_SPOT_LIGHTS < countKind LightKind.spot lights →
     countKind LightKind.point lights ≤ MAX_POINT_LIGHTS →
     countKind LightKind.directional lights ≤ MAX_DIRECTIONAL_LIGHTS →
     updateLightParameters lights LightCounts.zero
       = Except.error "Exceeded maximum number of spot lights") ∧
    (MAX_DIRECTIONAL_LIGHTS < countKind LightKind.directional lights →
     countKind LightKind.point lights ≤ MAX_POINT_LIGHTS →
     countKind LightKind.spot lights ≤ MAX_SPOT_LIGHTS →
     updateLightParameters lights LightCounts.zero
       = Except.error "Exceeded maximum number of directional lights") := by
  refine ⟨fun hp hs hd => ?_, fun hp hs hd => ?_, fun hs hp hd => ?_, fun hd hp hs => ?_⟩
  · have h := updateLightParameters_ok lights LightCounts.zero
      (by simpa [LightCounts.zero] using hp)
      (by simpa [LightCounts.zero] using hs)
      (by simpa [LightCounts.zero] using hd)
    simpa [LightCounts.zero] using h
  · exact updateLightParameters_point_overflow lights LightCounts.zero
      (by simp [LightCounts.zero, MAX_POINT_LIGHTS])
      (by simpa [LightCounts.zero] using hp)
      (by simpa [LightCounts.zero] using hs)
      (by simpa [LightCounts.zero] using hd)
  · exact updateLightParameters_spot_overflow lights LightCounts.zero
      (by simp [LightCounts.zero, MAX_SPOT_LIGHTS])
      (by simpa [LightCounts.zero] using hs)
      (by simpa [LightCounts.zero] using hp)
      (by simpa [LightCounts.zero] using hd)
  · exact updateLightParameters_directional_overflow lights LightCounts.zero
      (by simp [LightCounts.zero, MAX_DIRECTIONAL_LIGHTS])
      (by simpa [LightCounts.zero] using hd)
      (by simpa [LightCounts.zero] using hp)
      (by simpa [LightCounts.zero] using hs)

/-- C4 witness: 11 point lights fail naming "point"; exactly 10 succeed
with a count of 10. -/
theorem light_packing_capacity_witness :
    updateLightParameters (List.replicate 11 LightKind.point) LightCounts.zero
      = Except.error "Exceeded maximum number of point lights" ∧
    updateLightParameters (List.replicate 10 LightKind.point) LightCounts.zero
      = Except.ok ⟨countKind LightKind.point (List.replicate 10 LightKind.point),
          countKind LightKind.spot (List.replicate 10 LightKind.point),
          countKind LightKind.directional (List.replicate 10 LightKind.point)⟩ :=
  ⟨(light_packing_capacity (List.replicate 11 LightKind.point)).2.1
      (by decide) (by decide) (by decide),
   (light_packing_capacity (List.replicate 10 LightKind.point)).1
      (by decide) (by decide) (by decide)⟩

/-! ## Trace projection lemmas -/

theorem commitsOf_append (l1 l2 : List Event) :
    commitsOf (l1 ++ l2) = commitsOf l1 ++ commitsOf l2 := by
  induction l1 with
  | nil => rfl
  | cons e rest ih => cases e <;> simp [commitsOf, ih]

theorem appliesOf_append (l1 l2 : List Event) :
    appliesOf (l1 ++ l2) = appliesOf l1 ++ appliesOf l2 := by
  induction l1 with
  | nil => rfl
  | cons e rest ih => cases e <;> simp [appliesOf, ih]

theorem bindsOf_append (l1 l2 : List Event) :
    bindsOf (l1 ++ l2) = bindsOf l1 ++ bindsOf l2 := by
  induction l1 with
  | nil => rfl
  | cons e rest ih => cases e <;> simp [bindsOf, ih]

theorem bindsOf_map_bindTexture (l : List (TextureId × Nat)) :
    bindsOf (l.map (fun p => Event.bindTexture p.1 p.2)) = l := by
  induction l with
  | nil => rfl
  | cons p rest ih => simp [bindsOf, ih]


theorem commitProp_events {props : PropList} {n : String}
    {v : MaterialProperty} {a : AllocState} {cache : UniformCache}
    {a2 : AllocState} {cache2 : UniformCache} {evs : List Event}
    (h : commitProp props n v a cache = some (a2, cache2, evs)) :
    ∃ (u : UniformValue) (applied : Bool),
      evs = Event.commit n u :: (if applied then [Event.apply n u] else []) := by
  cases v with
  | Texture t =>
      simp only [commitProp, uniformOfScalar] at h
      cases hr : resolveSlot props a t with
      | none => simp [hr] at h
      | some p =>
          obtain ⟨s, a3⟩ := p
          rw [hr] at h
          simp only [Option.some.injEq, Prod.mk.injEq] at h
          exact ⟨UniformValue.Int (Int.ofNat s),
            (setUniform cache n (UniformValue.Int (Int.ofNat s))).2,
            h.2.2.symm⟩
  | Boolean b =>
      simp only [commitProp, uniformOfScalar] at h
      simp only [Option.some.injEq, Prod.mk.injEq] at h
      exact ⟨_, _, h.2.2.symm⟩
  | Integer i =>
      simp only [commitProp, uniformOfScalar] at h
      simp only [Option.some.injEq, Prod.mk.injEq] at h
      exact ⟨_, _, h.2.2.symm⟩
  | UInteger u =>
      simp only [commitProp, uniformOfScalar] at h
      simp only [Option.some.injEq, Prod.mk.injEq] at h
      exact ⟨_, _, h.2.2.symm⟩
  | Float f =>
      simp only [commitProp, uniformOfScalar] at h
      simp only [Option.some.injEq, Prod.mk.injEq] at h
      exact ⟨_, _, h.2.2.symm⟩
  | Vec3 w =>
      simp only [commitProp, uniformOfScalar] at h
      simp only [Option.some.injEq, Prod.mk.injEq] at h
      exact ⟨_, _, h.2.2.symm⟩
  | Color r g b =>
      simp only [commitProp, uniformOfScalar] at h
      simp only [Option.some.injEq, Prod.mk.injEq] at h
      exact ⟨_, _, h.2.2.symm⟩

theorem bindsOf_commitProp {props : PropList} {n : String}
    {v : MaterialProperty} {a : AllocState} {cache : UniformCache}
    {a2 : AllocState} {cache2 : UniformCache} {evs : List Event}
    (h : commitProp props n v a cache = some (a2, cache2, evs)) :
    bindsOf evs = [] := by
  obtain ⟨u, applied, he⟩ := commitProp_events h
  subst he
  cases applied <;> simp [bindsOf]

theorem bindsOf_processProps (props overrides : PropList) :
    ∀ (todo : PropList) (a : AllocState) (cache : UniformCache) r,
      processProps props overrides todo a cache = some r →
      bindsOf r.2.2 = [] := by
  intro todo
  induction todo with
  | nil =>
      intro a cache r h
      simp only [processProps, Option.some.injEq] at h
      rw [← h]
      rfl
  | cons p rest ih =>
      intro a cache r h
      obtain ⟨n, v⟩ := p
      rw [processProps] at h
      cases hc : commitProp props n
          (match alookup overrides n with
            | some w => w
            | none => v) a cache with
      | none => rw [hc] at h; simp at h
      | some q =>
          obtain ⟨a2, cache2, evs⟩ := q
          rw [hc, Option.some_bind] at h
          cases hp : processProps props overrides rest a2 cache2 with
          | none => rw [hp] at h; simp at h
          | some r2 =>
              rw [hp] at h
              simp only [Option.map_some', Option.some.injEq] at h
              have h1 := bindsOf_commitProp hc
              have h2 := ih a2 cache2 r2 hp
              rw [← h]
              simp [bindsOf_append, h1, h2]

/-- C7: texture-to-slot device binds are never gated by the uniform value
cache: every successful activation ends by binding exactly the textures of
the allocator's current mapping, each to its assigned slot (first
conjunct); and in the end-to-end scenario — a material with base
properties `{material.diffuse: Texture(1), material.shininess:
Integer(32)}` activated twice in a row with identical (empty) overrides —
the apply for `material.shininess` runs on the first activation only
(the applies across both activations are exactly the first activation's
two), while each of the two activations issues one texture bind (second
and third conjuncts). -/
theorem texture_binds_not_cache_gated :
    (∀ (m : MaterialState) (overrides : PropList) r,
       useMaterial m overrides = some r →
       bindsOf r.2 = r.1.alloc.textureToSlot) ∧
    ((useMaterial ⟨[("material.diffuse", MaterialProperty.Texture 1),
          ("material.shininess", MaterialProperty.Integer 32)],
        AllocState.init, []⟩ []).bind
      (fun r1 => (useMaterial r1.1 []).map
        (fun r2 => appliesOf r1.2 ++ appliesOf r2.2))
      = some [("material.diffuse", UniformValue.Int 0),
              ("material.shininess", UniformValue.Int 32)]) ∧
    ((useMaterial ⟨[("material.diffuse", MaterialProperty.Texture 1),
          ("material.shininess", MaterialProperty.Integer 32)],
        AllocState.init, []⟩ []).bind
      (fun r1 => (useMaterial r1.1 []).map
        (fun r2 => (bindsOf r1.2, bindsOf r2.2)))
      = some ([(1, 0)], [(1, 0)])) := by
  refine ⟨?_, by decide, by decide⟩
  intro m overrides r h
  unfold useMaterial at h
  cases hp : processProps m.properties overrides m.properties m.alloc m.cache with
  | none => rw [hp] at h; simp at h
  | some q =>
      obtain ⟨a, cache, evs⟩ := q
      rw [hp] at h
      simp only [Option.map_some', Option.some.injEq] at h
      have hb := bindsOf_processProps m.properties overrides m.properties
        m.alloc m.cache _ hp
      rw [← h]
      simp only [bindsOf, List.append_eq]
      rw [bindsOf_append]
      simp only at hb
      rw [hb, bindsOf_map_bindTexture]
      rfl

/-- C7 witness: the general bind conjunct applied to a material with no
properties (empty final mapping, so no binds). -/
theorem texture_binds_not_cache_gated_witness :
    bindsOf [Event.useProgram] = AllocState.init.textureToSlot :=
  texture_binds_not_cache_gated.1 ⟨[], AllocState.init, []⟩ []
    (⟨[], AllocState.init, []⟩, [Event.useProgram]) rfl

theorem commitsOf_map_bindTexture (l : List (TextureId × Nat)) :
    commitsOf (l.map (fun p => Event.bindTexture p.1 p.2)) = [] := by
  induction l with
  | nil => rfl
  | cons p rest ih => simp [commitsOf, ih]

theorem commitProp_commit_value {props : PropList} {n : String}
    {v : MaterialProperty} {a : AllocState} {cache : UniformCache}
    {a2 : AllocState} {cache2 : UniformCache} {evs : List Event}
    (h : commitProp props n v a cache = some (a2, cache2, evs)) :
    ∃ u, commitsOf evs = [(n, u)] ∧
      (∀ w, uniformOfScalar v = some w → u = w) ∧
      (uniformOfScalar v = none →
        ∃ s : Nat, u = UniformValue.Int (Int.ofNat s)) := by
  cases v with
  | Texture t =>
      simp only [commitProp, uniformOfScalar] at h
      cases hr : resolveSlot props a t with
      | none => simp [hr] at h
      | some p =>
          obtain ⟨s, a3⟩ := p
          rw [hr] at h
          simp only [Option.some.injEq, Prod.mk.injEq] at h
          refine ⟨UniformValue.Int (Int.ofNat s), ?_, ?_, ?_⟩
          · rw [← h.2.2]
            cases (setUniform cache n (UniformValue.Int (Int.ofNat s))).2 <;>
              simp [commitsOf]
          · intro w hw; cases hw
          · intro _; exact ⟨s, rfl⟩
  | Boolean b =>
      simp only [commitProp, uniformOfScalar] at h
      simp only [Option.some.injEq, Prod.mk.injEq] at h
      refine ⟨_, ?_, fun w hw => by cases hw; rfl, fun hn => by cases hn⟩
      rw [← h.2.2]
      cases (setUniform cache n (UniformValue.Int (if b then 1 else 0))).2 <;>
        simp [commitsOf]
  | Integer i =>
      simp only [commitProp, uniformOfScalar] at h
      simp only [Option.some.injEq, Prod.mk.injEq] at h
      refine ⟨_, ?_, fun w hw => by cases hw; rfl, fun hn => by cases hn⟩
      rw [← h.2.2]
      cases (setUniform cache n (UniformValue.Int i)).2 <;> simp [commitsOf]
  | UInteger u =>
      simp only [commitProp, uniformOfScalar] at h
      simp only [Option.some.injEq, Prod.mk.injEq] at h
      refine ⟨_, ?_, fun w hw => by cases hw; rfl, fun hn => by cases hn⟩
      rw [← h.2.2]
      cases (setUniform cache n (UniformValue.UInt u)).2 <;> simp [commitsOf]
  | Float f =>
      simp only [commitProp, uniformOfScalar] at h
      simp only [Option.some.injEq, Prod.mk.injEq] at h
      refine ⟨_, ?_, fun w hw => by cases hw; rfl, fun hn => by cases hn⟩
      rw [← h.2.2]
      cases (setUniform cache n (UniformValue.Float f)).2 <;> simp [commitsOf]
  | Vec3 w =>
      simp only [commitProp, uniformOfScalar] at h
      simp only [Option.some.injEq, Prod.mk.injEq] at h
      refine ⟨_, ?_, fun w hw => by cases hw; rfl, fun hn => by cases hn⟩
      rw [← h.2.2]
      cases (setUniform cache n (UniformValue.VecF3 w)).2 <;> simp [commitsOf]
  | Color r g b =>
      simp only [commitProp, uniformOfScalar] at h
      simp only [Option.some.injEq, Prod.mk.injEq] at h
      refine ⟨_, ?_, fun w hw => by cases hw; rfl, fun hn => by cases hn⟩
      rw [← h.2.2]
      cases (setUniform cache n (UniformValue.VecF3 (r, g, b))).2 <;>
        simp [commitsOf]

theorem processProps_commits (props overrides : PropList) :
    ∀ (todo : PropList) (a : AllocState) (cache : UniformCache) r,
      processProps props overrides todo a cache = some r →
      List.Forall₂
        (fun (c : String × UniformValue) (p : String × MaterialProperty) =>
          c.1 = p.1 ∧
          (∀ u, uniformOfScalar (effectiveValue overrides p) = some u → c.2 = u) ∧
          (uniformOfScalar (effectiveValue overrides p) = none →
            ∃ s : Nat, c.2 = UniformValue.Int (Int.ofNat s)))
        (commitsOf r.2.2) todo := by
  intro todo
  induction todo with
  | nil =>
      intro a cache r h
      simp only [processProps, Option.some.injEq] at h
      rw [← h]
      exact List.Forall₂.nil
  | cons p rest ih =>
      intro a cache r h
      obtain ⟨n, v⟩ := p
      rw [processProps] at h
      cases hc : commitProp props n
          (match alookup overrides n with
            | some w => w
            | none => v) a cache with
      | none => rw [hc] at h; simp at h
      | some q =>
          obtain ⟨a2, cache2, evs⟩ := q
          rw [hc, Option.some_bind] at h
          cases hp : processProps props overrides rest a2 cache2 with
          | none => rw [hp] at h; simp at h
          | some r2 =>
              rw [hp] at h
              simp only [Option.map_some', Option.some.injEq] at h
              obtain ⟨u, hcu, hsome, hnone⟩ := commitProp_commit_value hc
              have htail := ih a2 cache2 r2 hp
              rw [← h]
              simp only [commitsOf_append, hcu]
              refine List.Forall₂.cons ⟨rfl, ?_, ?_⟩ htail
              · intro w hw
                exact hsome w (by simpa [effectiveValue] using hw)
              · intro hn
                exact hnone (by simpa [effectiveValue] using hn)

/-- C1 counterexample: the claim fails for a property present only in the
override set.  Activating a material whose base property set is empty with
the override set `{x: Integer(1)}` succeeds and commits nothing: the name
`x`, though in `base ∪ overrides`, is never visited, because
`use_material` iterates only the base map. -/
theorem override_only_name_dropped :
    (useMaterial ⟨[], AllocState.init, []⟩
        [("x", MaterialProperty.Integer 1)]).map (fun r => commitsOf r.2)
      = some [] := by decide

/-- C1 (amended): activation commits exactly one value per property of the
base set, in base-map iteration order: the committed name is the base
entry's name and the committed value is the dispatch image of the
effective value — the override's when the override set defines that name,
else the base's (scalars commit their converted value, textures an
integer slot index).  Names defined only in the override set are not
visited at all (see the counterexample). -/
theorem use_material_commits_base_names (m : MaterialState)
    (overrides : PropList) (r : MaterialState × List Event)
    (h : useMaterial m overrides = some r) :
    List.Forall₂
      (fun (c : String × UniformValue) (p : String × MaterialProperty) =>
        c.1 = p.1 ∧
        (∀ u, uniformOfScalar (effectiveValue overrides p) = some u → c.2 = u) ∧
        (uniformOfScalar (effectiveValue overrides p) = none →
          ∃ s : Nat, c.2 = UniformValue.Int (Int.ofNat s)))
      (commitsOf r.2) m.properties := by
  unfold useMaterial at h
  cases hp : processProps m.properties overrides m.properties m.alloc m.cache with
  | none => rw [hp] at h; simp at h
  | some q =>
      obtain ⟨a, cache, evs⟩ := q
      rw [hp] at h
      simp only [Option.map_some', Option.some.injEq] at h
      have hc := processProps_commits m.properties overrides m.properties
        m.alloc m.cache _ hp
      rw [← h]
      simp only [commitsOf, List.append_eq, commitsOf_append,
        commitsOf_map_bindTexture, List.append_nil]
      simpa using hc

/-- C1 witness: base `{x: Integer(5)}` with override `{x: Integer(7)}`
commits exactly one value for `x`, the override's. -/
theorem use_material_commits_base_names_witness :
    List.Forall₂
      (fun (c : String × UniformValue) (p : String × MaterialProperty) =>
        c.1 = p.1 ∧
        (∀ u, uniformOfScalar
            (effectiveValue [("x", MaterialProperty.Integer 7)] p) = some u →
          c.2 = u) ∧
        (uniformOfScalar
            (effectiveValue [("x", MaterialProperty.Integer 7)] p) = none →
          ∃ s : Nat, c.2 = UniformValue.Int (Int.ofNat s)))
      (commitsOf [Event.useProgram, Event.commit "x" (UniformValue.Int 7),
        Event.apply "x" (UniformValue.Int 7)])
      [("x", MaterialProperty.Integer 5)] :=
  use_material_commits_base_names
    ⟨[("x", MaterialProperty.Integer 5)], AllocState.init, []⟩
    [("x", MaterialProperty.Integer 7)]
    (⟨[("x", MaterialProperty.Integer 5)], AllocState.init,
        [("x", UniformValue.Int 7)]⟩,
      [Event.useProgram, Event.commit "x" (UniformValue.Int 7),
        Event.apply "x" (UniformValue.Int 7)])
    rfl

/-! ## Texture-slot allocation: lowest-free-slot policy (C5) -/

/-- A fully occupied allocator: textures `100..115` bound to slots
`0..15`, all sixteen slot flags set. -/
def fullAlloc : AllocState :=
  ⟨(List.range NUM_TEXTURE_SLOTS).map (fun i => (100 + i, i)),
   fun i => i < NUM_TEXTURE_SLOTS⟩

/-- Properties referencing every texture of `fullAlloc` except `103`
(bound at slot 3), plus the fresh texture `200`. -/
def reuseProps : PropList :=
  ((List.range NUM_TEXTURE_SLOTS).filter (fun i => i ≠ 3)).map
    (fun i => (toString i, MaterialProperty.Texture (100 + i))) ++
  [("new", MaterialProperty.Texture 200)]

/-- C5: the allocator frees the slots of no-longer-referenced textures
first and then assigns each newly referenced texture the lowest-index
free slot; with no free slot left it fails fatally.  Conjuncts: (1) the
concrete reuse scenario — texture `103` at slot 3 drops out, the new
texture `200` takes exactly slot 3, with no other slot free; (2) in
general, when exactly one texture is newly referenced after the freeing
pass, it is mapped to the lowest-index slot free after that pass; (3) if
after the freeing pass some referenced texture is unbound and no slot is
free, the rebuild panics. -/
theorem allocator_lowest_free_slot :
    ((updateTextureSlots reuseProps fullAlloc).map
        (fun a => (alookup a.textureToSlot 200, alookup a.textureToSlot 103))
      = some (some 3, none)) ∧
    (∀ (props : PropList) (a : AllocState) (t : TextureId) (a2 : AllocState),
      (texturesOf props).filter
          (fun x => alookup
            (freeUnused (texturesOf props) a.textureToSlot a.textureSlots).1 x
            = none) = [t] →
      updateTextureSlots props a = some a2 →
      ∃ i, lowestFreeSlot
          (freeUnused (texturesOf props) a.textureToSlot a.textureSlots).2
          = some i ∧
        alookup a2.textureToSlot t = some i) ∧
    (∀ (props : PropList) (a : AllocState),
      (∃ t ∈ texturesOf props,
        alookup (freeUnused (texturesOf props) a.textureToSlot a.textureSlots).1 t
          = none) →
      lowestFreeSlot (freeUnused (texturesOf props) a.textureToSlot a.textureSlots).2
        = none →
      updateTextureSlots props a = none) := by
  refine ⟨by decide, ?_, ?_⟩
  · intro props a t a2 hfilter hupd
    simp only [updateTextureSlots] at hupd
    rw [hfilter] at hupd
    cases hfree : lowestFreeSlot
        (freeUnused (texturesOf props) a.textureToSlot a.textureSlots).2 with
    | none => rw [assignSlots, hfree] at hupd; cases hupd
    | some i =>
        refine ⟨i, rfl, ?_⟩
        rw [assignSlots, hfree] at hupd
        simp only [assignSlots, Option.map_some', Option.some.injEq] at hupd
        rw [← hupd]
        simp [alookup]
  · intro props a hex hfree
    obtain ⟨t, htmem, htnone⟩ := hex
    simp only [updateTextureSlots]
    cases hub : (texturesOf props).filter
        (fun x => alookup
          (freeUnused (texturesOf props) a.textureToSlot a.textureSlots).1 x
          = none) with
    | nil =>
        have hmem : t ∈ (texturesOf props).filter
            (fun x => alookup
              (freeUnused (texturesOf props) a.textureToSlot a.textureSlots).1 x
              = none) :=
          List.mem_filter.mpr ⟨htmem, by simpa using htnone⟩
        rw [hub] at hmem
        cases hmem
    | cons t0 rest =>
        rw [assignSlots, hfree]
        rfl

/-- C5 witness: a material referencing one fresh texture maps it to the
lowest free slot of a fresh allocator, slot 0. -/
theorem allocator_lowest_free_slot_witness :
    ∃ i, lowestFreeSlot
        (freeUnused (texturesOf [("d", MaterialProperty.Texture 1)])
          AllocState.init.textureToSlot AllocState.init.textureSlots).2
        = some i ∧
      alookup
        (match updateTextureSlots [("d", MaterialProperty.Texture 1)]
            AllocState.init with
          | some a => a
          | none => AllocState.init).textureToSlot 1 = some i :=
  allocator_lowest_free_slot.2.1 [("d", MaterialProperty.Texture 1)]
    AllocState.init 1
    (match updateTextureSlots [("d", MaterialProperty.Texture 1)]
        AllocState.init with
      | some a => a
      | none => AllocState.init)
    (by decide) rfl

/-! ## Allocator rebuild: domain characterisation -/

theorem freeUnused_fst (used : List TextureId) :
    ∀ (m : List (TextureId × Nat)) (slots : SlotFlags),
      (freeUnused used m slots).1 = m.filter (fun p => p.1 ∈ used) := by
  intro m
  induction m with
  | nil => intro slots; rfl
  | cons p rest ih =>
      intro slots
      obtain ⟨t, s⟩ := p
      by_cases hmem : t ∈ used
      · simp [freeUnused, hmem, ih]
      · simp [freeUnused, hmem, ih]

theorem assignSlots_mem_fst (ts : List TextureId) :
    ∀ (m : List (TextureId × Nat)) (slots : SlotFlags)
      (m2 : List (TextureId × Nat)) (slots2 : SlotFlags),
      assignSlots ts m slots = some (m2, slots2) →
      ∀ x, x ∈ m2.map Prod.fst ↔ x ∈ ts ∨ x ∈ m.map Prod.fst := by
  induction ts with
  | nil =>
      intro m slots m2 slots2 h x
      simp only [assignSlots, Option.some.injEq, Prod.mk.injEq] at h
      rw [← h.1]
      simp
  | cons t rest ih =>
      intro m slots m2 slots2 h x
      rw [assignSlots] at h
      cases hf : lowestFreeSlot slots with
      | none => rw [hf] at h; cases h
      | some i =>
          rw [hf] at h
          have hiff := ih ((t, i) :: m) (setSlot slots i) m2 slots2 h x
          rw [hiff]
          simp only [List.map_cons, List.mem_cons]
          tauto

theorem updateTextureSlots_mem_fst {props : PropList} {a a2 : AllocState}
    (h : updateTextureSlots props a = some a2) :
    ∀ x, x ∈ a2.textureToSlot.map Prod.fst ↔ x ∈ texturesOf props := by
  intro x
  simp only [updateTextureSlots] at h
  cases has : assignSlots
      ((texturesOf props).filter (fun t =>
        alookup (freeUnused (texturesOf props) a.textureToSlot a.textureSlots).1 t
          = none))
      (freeUnused (texturesOf props) a.textureToSlot a.textureSlots).1
      (freeUnused (texturesOf props) a.textureToSlot a.textureSlots).2 with
  | none => rw [has] at h; cases h
  | some q =>
      obtain ⟨m2, slots2⟩ := q
      rw [has] at h
      simp only [Option.map_some', Option.some.injEq] at h
      have hmem := assignSlots_mem_fst _ _ _ _ _ has x
      rw [← h]
      show x ∈ m2.map Prod.fst ↔ x ∈ texturesOf props
      rw [hmem]
      constructor
      · intro hx
        rcases hx with h1 | h2
        · exact (List.mem_filter.mp h1).1
        · rw [freeUnused_fst] at h2
          obtain ⟨p, hp, hpx⟩ := List.mem_map.mp h2
          have hpf := List.mem_filter.mp hp
          rw [← hpx]
          simpa using hpf.2
      · intro hx
        cases halo : alookup
            (freeUnused (texturesOf props) a.textureToSlot a.textureSlots).1 x with
        | none => exact Or.inl (List.mem_filter.mpr ⟨hx, by simp [halo]⟩)
        | some s => exact Or.inr (alookup_isSome_mem halo)

theorem resolveSlot_alloc_mem {props : PropList} {a : AllocState}
    {t : TextureId} {s : Nat} {a2 : AllocState}
    (h : resolveSlot props a t = some (s, a2)) :
    ∀ x, x ∈ a2.textureToSlot.map Prod.fst →
      x ∈ a.textureToSlot.map Prod.fst ∨ x ∈ texturesOf props := by
  unfold resolveSlot at h
  cases hl : alookup a.textureToSlot t with
  | some s0 =>
      rw [hl] at h
      simp only [Option.some.injEq, Prod.mk.injEq] at h
      rw [← h.2]
      exact fun x hx => Or.inl hx
  | none =>
      rw [hl] at h
      cases hu : updateTextureSlots props a with
      | none => rw [hu] at h; simp at h
      | some a3 =>
          rw [hu] at h
          cases hl3 : alookup a3.textureToSlot t with
          | none => simp [hl3] at h
          | some s3 =>
              simp only [hl3, Option.some.injEq, Prod.mk.injEq] at h
              rw [← h.2]
              exact fun x hx => Or.inr ((updateTextureSlots_mem_fst hu x).mp hx)

theorem commitProp_alloc_mem {props : PropList} {n : String}
    {v : MaterialProperty} {a : AllocState} {cache : UniformCache}
    {a2 : AllocState} {cache2 : UniformCache} {evs : List Event}
    (h : commitProp props n v a cache = some (a2, cache2, evs)) :
    ∀ x, x ∈ a2.textureToSlot.map Prod.fst →
      x ∈ a.textureToSlot.map Prod.fst ∨ x ∈ texturesOf props := by
  cases v with
  | Texture t =>
      simp only [commitProp, uniformOfScalar] at h
      cases hr : resolveSlot props a t with
      | none => simp [hr] at h
      | some p =>
          obtain ⟨s, a3⟩ := p
          rw [hr] at h
          simp only [Option.some.injEq, Prod.mk.injEq] at h
          rw [← h.1]
          exact resolveSlot_alloc_mem hr
  | Boolean b =>
      simp only [commitProp, uniformOfScalar, Option.some.injEq,
        Prod.mk.injEq] at h
      rw [← h.1]; exact fun x hx => Or.inl hx
  | Integer i =>
      simp only [commitProp, uniformOfScalar, Option.some.injEq,
        Prod.mk.injEq] at h
      rw [← h.1]; exact fun x hx => Or.inl hx
  | UInteger u =>
      simp only [commitProp, uniformOfScalar, Option.some.injEq,
        Prod.mk.injEq] at h
      rw [← h.1]; exact fun x hx => Or.inl hx
  | Float f =>
      simp only [commitProp, uniformOfScalar, Option.some.injEq,
        Prod.mk.injEq] at h
      rw [← h.1]; exact fun x hx => Or.inl hx
  | Vec3 w =>
      simp only [commitProp, uniformOfScalar, Option.some.injEq,
        Prod.mk.injEq] at h
      rw [← h.1]; exact fun x hx => Or.inl hx
  | Color r g b =>
      simp only [commitProp, uniformOfScalar, Option.some.injEq,
        Prod.mk.injEq] at h
      rw [← h.1]; exact fun x hx => Or.inl hx

theorem resolveSlot_missing {props : PropList} {a : AllocState} {t : TextureId}
    (hka : alookup a.textureToSlot t = none) (ht : t ∉ texturesOf props) :
    resolveSlot props a t = none := by
  unfold resolveSlot
  rw [hka]
  cases hu : updateTextureSlots props a with
  | none => rfl
  | some a3 =>
      have h2 : alookup a3.textureToSlot t = none :=
        (alookup_eq_none_iff _ _).mpr
          (fun hmem => ht ((updateTextureSlots_mem_fst hu t).mp hmem))
      simp [h2]

theorem commitProp_texture_missing {props : PropList} {k : String}
    {t : TextureId} {a : AllocState} {cache : UniformCache}
    (hka : t ∉ a.textureToSlot.map Prod.fst) (ht : t ∉ texturesOf props) :
    commitProp props k (MaterialProperty.Texture t) a cache = none := by
  have hres := resolveSlot_missing ((alookup_eq_none_iff _ _).mpr hka) ht
  simp [commitProp, uniformOfScalar, hres]

theorem processProps_override_texture_panics (props overrides : PropList)
    (t : TextureId) (ht : t ∉ texturesOf props) :
    ∀ (todo : PropList) (a : AllocState) (cache : UniformCache),
      t ∉ a.textureToSlot.map Prod.fst →
      (∃ n t0, (n, MaterialProperty.Texture t0) ∈ todo ∧
        alookup overrides n = some (MaterialProperty.Texture t)) →
      processProps props overrides todo a cache = none := by
  intro todo
  induction todo with
  | nil =>
      intro a cache _ hex
      obtain ⟨n, t0, hmem, _⟩ := hex
      cases hmem
  | cons p rest ih =>
      intro a cache hka hex
      obtain ⟨k, w⟩ := p
      rw [processProps]
      by_cases hovk : alookup overrides k = some (MaterialProperty.Texture t)
      · have heff : (match alookup overrides k with
            | some w2 => w2
            | none => w) = MaterialProperty.Texture t := by rw [hovk]
        rw [heff, commitProp_texture_missing hka ht]
        rfl
      · cases hc : commitProp props k
            (match alookup overrides k with
              | some w2 => w2
              | none => w) a cache with
        | none => rfl
        | some q =>
            obtain ⟨a3, cache3, evs⟩ := q
            rw [Option.some_bind]
            have hex2 : ∃ n t0, (n, MaterialProperty.Texture t0) ∈ rest ∧
                alookup overrides n = some (MaterialProperty.Texture t) := by
              obtain ⟨n, t0, hmem, hovn⟩ := hex
              rcases List.mem_cons.mp hmem with heq | hmem2
              · exfalso
                have hkn : k = n := (Prod.mk.injEq _ _ _ _).mp heq.symm |>.1
                exact hovk (hkn ▸ hovn)
              · exact ⟨n, t0, hmem2, hovn⟩
            have hka3 : t ∉ a3.textureToSlot.map Prod.fst := by
              intro hmem3
              rcases commitProp_alloc_mem hc t hmem3 with h1 | h2
              · exact hka h1
              · exact ht h2
            rw [ih a3 cache3 hka3 hex2]
            rfl

/-- C9: activating a material with an override that maps a (texture-valued)
base property name to a texture occurring nowhere as a value in the base
property set panics, provided the allocator holds no (stale) slot for that
texture: the rebuild collects referenced textures from the base set only,
so the override's texture is never assigned a slot and the indexing lookup
after the rebuild fails.  The no-stale-slot hypothesis always holds for a
freshly built material, whose slot map is populated from base values only. -/
theorem override_unmapped_texture_panics (props overrides : PropList)
    (a : AllocState) (cache : UniformCache) (n : String) (t0 t : TextureId)
    (hbase : (n, MaterialProperty.Texture t0) ∈ props)
    (hov : alookup overrides n = some (MaterialProperty.Texture t))
    (ht : t ∉ texturesOf props)
    (hstale : t ∉ a.textureToSlot.map Prod.fst) :
    useMaterial ⟨props, a, cache⟩ overrides = none := by
  unfold useMaterial
  rw [processProps_override_texture_panics props overrides t ht props a cache
    hstale ⟨n, t0, hbase, hov⟩]
  rfl

/-- C9 witness: base `{d: Texture(1)}` activated with override
`{d: Texture(2)}` panics. -/
theorem override_unmapped_texture_panics_witness :
    useMaterial ⟨[("d", MaterialProperty.Texture 1)], AllocState.init, []⟩
      [("d", MaterialProperty.Texture 2)] = none :=
  override_unmapped_texture_panics [("d", MaterialProperty.Texture 1)]
    [("d", MaterialProperty.Texture 2)] AllocState.init [] "d" 1 2
    (by decide) rfl (by decide) (by decide)

/-! ## Allocator invariant (C3) -/

/-- The allocator-state invariant claimed for `Material`: texture keys are
unique (at most one slot per texture), assigned slots are pairwise
distinct, and every assigned slot index is below 16 with its in-use flag
set. -/
def AllocInv (a : AllocState) : Prop :=
  (a.textureToSlot.map Prod.fst).Nodup ∧
  (a.textureToSlot.map Prod.snd).Nodup ∧
  ∀ p ∈ a.textureToSlot, p.2 < NUM_TEXTURE_SLOTS ∧ a.textureSlots p.2 = true

theorem freeUnused_flags_true (used : List TextureId) :
    ∀ (m : List (TextureId × Nat)) (slots : SlotFlags) (i : Nat),
      slots i = true →
      (∀ p ∈ m, p.2 = i → p.1 ∈ used) →
      (freeUnused used m slots).2 i = true := by
  intro m
  induction m with
  | nil => intro slots i h _; exact h
  | cons p rest ih =>
      intro slots i h hcond
      obtain ⟨t, s⟩ := p
      by_cases hmem : t ∈ used
      · simp only [freeUnused, hmem]
        simp only [if_true, decide_True]
        exact ih slots i h
          (fun q hq hqi => hcond q (List.mem_cons_of_mem _ hq) hqi)
      · have hsi : s ≠ i := fun he =>
          hmem (hcond (t, s) (List.mem_cons_self _ _) he)
        simp only [freeUnused, hmem]
        simp only [if_false, decide_False]
        show clearSlot (freeUnused used rest slots).2 s i = true
        simp only [clearSlot]
        rw [if_neg (Ne.symm hsi)]
        exact ih slots i h
          (fun q hq hqi => hcond q (List.mem_cons_of_mem _ hq) hqi)

theorem assignSlots_inv (ts : List TextureId) :
    ∀ (m : List (TextureId × Nat)) (slots : SlotFlags)
      (m2 : List (TextureId × Nat)) (slots2 : SlotFlags),
      (m.map Prod.fst).Nodup →
      (m.map Prod.snd).Nodup →
      (∀ p ∈ m, p.2 < NUM_TEXTURE_SLOTS ∧ slots p.2 = true) →
      (∀ t ∈ ts, t ∉ m.map Prod.fst) →
      ts.Nodup →
      assignSlots ts m slots = some (m2, slots2) →
      (m2.map Prod.fst).Nodup ∧ (m2.map Prod.snd).Nodup ∧
      (∀ p ∈ m2, p.2 < NUM_TEXTURE_SLOTS ∧ slots2 p.2 = true) := by
  induction ts with
  | nil =>
      intro m slots m2 slots2 h1 h2 h3 _ _ h
      simp only [assignSlots, Option.some.injEq, Prod.mk.injEq] at h
      obtain ⟨hm, hs⟩ := h
      subst hm
      subst hs
      exact ⟨h1, h2, h3⟩
  | cons t rest ih =>
      intro m slots m2 slots2 h1 h2 h3 hdisj hnodup h
      rw [assignSlots] at h
      cases hf : lowestFreeSlot slots with
      | none => rw [hf] at h; cases h
      | some i =>
          rw [hf] at h
          have hi_lt : i < NUM_TEXTURE_SLOTS := by
            have hmemr := List.mem_of_find?_eq_some hf
            simpa [List.mem_range] using hmemr
          have hi_false : slots i = false := by
            have hpred := List.find?_some hf
            simpa using hpred
          refine ih ((t, i) :: m) (setSlot slots i) m2 slots2 ?_ ?_ ?_ ?_ ?_ h
          · simp only [List.map_cons, List.nodup_cons]
            exact ⟨hdisj t (List.mem_cons_self _ _), h1⟩
          · simp only [List.map_cons, List.nodup_cons]
            refine ⟨?_, h2⟩
            intro hmem
            obtain ⟨p, hp, hpi⟩ := List.mem_map.mp hmem
            have hflag := (h3 p hp).2
            rw [hpi, hi_false] at hflag
            cases hflag
          · intro p hp
            rcases List.mem_cons.mp hp with heq | hp2
            · subst heq
              exact ⟨hi_lt, by simp [setSlot]⟩
            · have h3p := h3 p hp2
              exact ⟨h3p.1, by simp [setSlot, h3p.2]⟩
          · intro x hx
            simp only [List.map_cons, List.mem_cons]
            rintro (hxt | hxm)
            · subst hxt
              exact (List.nodup_cons.mp hnodup).1 hx
            · exact hdisj x (List.mem_cons_of_mem _ hx) hxm
          · exact (List.nodup_cons.mp hnodup).2

theorem updateTextureSlots_inv {props : PropList} {a a2 : AllocState}
    (hinv : AllocInv a) (h : updateTextureSlots props a = some a2) :
    AllocInv a2 := by
  obtain ⟨hkeys, hslots, hflags⟩ := hinv
  simp only [updateTextureSlots] at h
  cases has : assignSlots
      ((texturesOf props).filter (fun t =>
        alookup (freeUnused (texturesOf props) a.textureToSlot a.textureSlots).1 t
          = none))
      (freeUnused (texturesOf props) a.textureToSlot a.textureSlots).1
      (freeUnused (texturesOf props) a.textureToSlot a.textureSlots).2 with
  | none => rw [has] at h; cases h
  | some q =>
      obtain ⟨m2, slots2⟩ := q
      rw [has] at h
      simp only [Option.map_some', Option.some.injEq] at h
      have hfilter := freeUnused_fst (texturesOf props) a.textureToSlot
        a.textureSlots
      have hsub : (freeUnused (texturesOf props) a.textureToSlot
          a.textureSlots).1.Sublist a.textureToSlot := by
        rw [hfilter]; exact List.filter_sublist a.textureToSlot
      have hkeys1 : ((freeUnused (texturesOf props) a.textureToSlot
          a.textureSlots).1.map Prod.fst).Nodup :=
        (hsub.map Prod.fst).nodup hkeys
      have hslots1 : ((freeUnused (texturesOf props) a.textureToSlot
          a.textureSlots).1.map Prod.snd).Nodup :=
        (hsub.map Prod.snd).nodup hslots
      have hflags1 : ∀ p ∈ (freeUnused (texturesOf props) a.textureToSlot
          a.textureSlots).1,
          p.2 < NUM_TEXTURE_SLOTS ∧
          (freeUnused (texturesOf props) a.textureToSlot a.textureSlots).2 p.2
            = true := by
        intro p hp
        have hpm : p ∈ a.textureToSlot := hsub.mem hp
        refine ⟨(hflags p hpm).1, ?_⟩
        refine freeUnused_flags_true _ _ _ _ (hflags p hpm).2 ?_
        intro q hq hqi
        have hq_eq : q = p :=
          List.inj_on_of_nodup_map hslots hq hpm hqi
        rw [hfilter] at hp
        have := List.mem_filter.mp hp
        rw [hq_eq]
        simpa using this.2
      have hdisj : ∀ t ∈ (texturesOf props).filter (fun t =>
          alookup (freeUnused (texturesOf props) a.textureToSlot
            a.textureSlots).1 t = none),
          t ∉ (freeUnused (texturesOf props) a.textureToSlot
            a.textureSlots).1.map Prod.fst := by
        intro t htf
        have := (List.mem_filter.mp htf).2
        exact (alookup_eq_none_iff _ _).mp (by simpa using this)
      have htnodup : (texturesOf props).Nodup := by
        simp only [texturesOf]
        exact List.nodup_dedup _
      have hnodup : ((texturesOf props).filter (fun t =>
          alookup (freeUnused (texturesOf props) a.textureToSlot
            a.textureSlots).1 t = none)).Nodup :=
        htnodup.filter _
      have := assignSlots_inv _ _ _ _ _ hkeys1 hslots1 hflags1 hdisj hnodup has
      rw [← h]
      exact this

theorem resolveSlot_inv {props : PropList} {a : AllocState} {t : TextureId}
    {s : Nat} {a2 : AllocState} (hinv : AllocInv a)
    (h : resolveSlot props a t = some (s, a2)) : AllocInv a2 := by
  unfold resolveSlot at h
  cases hl : alookup a.textureToSlot t with
  | some s0 =>
      rw [hl] at h
      simp only [Option.some.injEq, Prod.mk.injEq] at h
      rw [← h.2]
      exact hinv
  | none =>
      rw [hl] at h
      cases hu : updateTextureSlots props a with
      | none => rw [hu] at h; simp at h
      | some a3 =>
          rw [hu] at h
          cases hl3 : alookup a3.textureToSlot t with
          | none => simp [hl3] at h
          | some s3 =>
              simp only [hl3, Option.some.injEq, Prod.mk.injEq] at h
              rw [← h.2]
              exact updateTextureSlots_inv hinv hu

theorem commitProp_inv {props : PropList} {n : String}
    {v : MaterialProperty} {a : AllocState} {cache : UniformCache}
    {a2 : AllocState} {cache2 : UniformCache} {evs : List Event}
    (hinv : AllocInv a)
    (h : commitProp props n v a cache = some (a2, cache2, evs)) :
    AllocInv a2 := by
  cases v with
  | Texture t =>
      simp only [commitProp, uniformOfScalar] at h
      cases hr : resolveSlot props a t with
      | none => simp [hr] at h
      | some p =>
          obtain ⟨s, a3⟩ := p
          rw [hr] at h
          simp only [Option.some.injEq, Prod.mk.injEq] at h
          rw [← h.1]
          exact resolveSlot_inv hinv hr
  | Boolean b =>
      simp only [commitProp, uniformOfScalar, Option.some.injEq,
        Prod.mk.injEq] at h
      rw [← h.1]; exact hinv
  | Integer i =>
      simp only [commitProp, uniformOfScalar, Option.some.injEq,
        Prod.mk.injEq] at h
      rw [← h.1]; exact hinv
  | UInteger u =>
      simp only [commitProp, uniformOfScalar, Option.some.injEq,
        Prod.mk.injEq] at h
      rw [← h.1]; exact hinv
  | Float f =>
      simp only [commitProp, uniformOfScalar, Option.some.injEq,
        Prod.mk.injEq] at h
      rw [← h.1]; exact hinv
  | Vec3 w =>
      simp only [commitProp, uniformOfScalar, Option.some.injEq,
        Prod.mk.injEq] at h
      rw [← h.1]; exact hinv
  | Color r g b =>
      simp only [commitProp, uniformOfScalar, Option.some.injEq,
        Prod.mk.injEq] at h
      rw [← h.1]; exact hinv

theorem processProps_inv (props overrides : PropList) :
    ∀ (todo : PropList) (a : AllocState) (cache : UniformCache) r,
      AllocInv a →
      processProps props overrides todo a cache = some r →
      AllocInv r.1 := by
  intro todo
  induction todo with
  | nil =>
      intro a cache r hinv h
      simp only [processProps, Option.some.injEq] at h
      rw [← h]
      exact hinv
  | cons p rest ih =>
      intro a cache r hinv h
      obtain ⟨n, v⟩ := p
      rw [processProps] at h
      cases hc : commitProp props n
          (match alookup overrides n with
            | some w => w
            | none => v) a cache with
      | none => rw [hc] at h; simp at h
      | some q =>
          obtain ⟨a2, cache2, evs⟩ := q
          rw [hc, Option.some_bind] at h
          cases hp : processProps props overrides rest a2 cache2 with
          | none => rw [hp] at h; simp at h
          | some r2 =>
              rw [hp] at h
              simp only [Option.map_some', Option.some.injEq] at h
              have hinv2 := commitProp_inv hinv hc
              have hr2 := ih a2 cache2 r2 hinv2 hp
              rw [← h]
              exact hr2

/-- C3 counterexample: the containment part of the claimed invariant fails.
Activating a fresh material with base `{d: Texture(1), e: Texture(2)}`
under the override `{d: Texture(2)}` succeeds, and afterwards the slot map
holds textures `[2, 1]` — but the properties being bound (override-
resolved) reference only texture `2`: texture `1` stays mapped (and is
bound to its slot) though no bound property references it, because the
rebuild collects referenced textures from the base set only. -/
theorem slot_map_retains_unreferenced_texture :
    ((useMaterial ⟨[("d", MaterialProperty.Texture 1),
          ("e", MaterialProperty.Texture 2)], AllocState.init, []⟩
        [("d", MaterialProperty.Texture 2)]).map
      (fun r => r.1.alloc.textureToSlot.map Prod.fst) = some [2, 1]) ∧
    texturesOf ([("d", MaterialProperty.Texture 1),
        ("e", MaterialProperty.Texture 2)].map
      (fun p => (p.1, effectiveValue [("d", MaterialProperty.Texture 2)] p)))
      = [2] :=
  ⟨by decide, by decide⟩

/-- C3 (amended): the quantitative parts of the invariant hold — across
every successful activation, texture keys stay unique (at most one slot
per texture), no two textures hold the same slot, and every slot index is
below 16 (first conjunct); and immediately after any allocator rebuild the
mapping's domain is exactly the set of textures referenced by the
material's BASE property set (second conjunct).  The containment-in-the-
properties-being-bound part of the original claim is dropped: the rebuild
reads the base set, not the override-resolved set (see the
counterexample). -/
theorem alloc_invariant_preserved :
    (∀ (m : MaterialState) (overrides : PropList) r,
      AllocInv m.alloc → useMaterial m overrides = some r →
      AllocInv r.1.alloc) ∧
    (∀ (props : PropList) (a a2 : AllocState),
      updateTextureSlots props a = some a2 →
      ∀ x, x ∈ a2.textureToSlot.map Prod.fst ↔ x ∈ texturesOf props) := by
  constructor
  · intro m overrides r hinv h
    unfold useMaterial at h
    cases hp : processProps m.properties overrides m.properties m.alloc
        m.cache with
    | none => rw [hp] at h; simp at h
    | some q =>
        obtain ⟨a, cache, evs⟩ := q
        rw [hp] at h
        simp only [Option.map_some', Option.some.injEq] at h
        have := processProps_inv m.properties overrides m.properties m.alloc
          m.cache _ hinv hp
        rw [← h]
        exact this
  · intro props a a2 h
    exact updateTextureSlots_mem_fst h

/-- C3 witness: the invariant survives a first activation of a fresh
single-texture material, and the rebuild domain equals that base texture
set. -/
theorem alloc_invariant_preserved_witness :
    AllocInv (⟨[(1, 0)], setSlot AllocState.init.textureSlots 0⟩ : AllocState) :=
  alloc_invariant_preserved.1
    ⟨[("d", MaterialProperty.Texture 1)], AllocState.init, []⟩ []
    (⟨[("d", MaterialProperty.Texture 1)],
        ⟨[(1, 0)], setSlot AllocState.init.textureSlots 0⟩,
        [("d", UniformValue.Int 0)]⟩,
      [Event.useProgram, Event.commit "d" (UniformValue.Int 0),
        Event.apply "d" (UniformValue.Int 0), Event.bindTexture 1 0])
    (by simp [AllocInv, AllocState.init]) rfl
